import Mathlib

/-!
Verification of the SEBI circulars scraper and summarizer.

This file gives a shallow embedding of the core functions of the repository
(`extract_sebi_circulars_on_page`, `scrape_recent_circulars`,
`find_similar_circulars_local`, `summarize_circular_text`) and proves the
specification's testable properties about them.

Modelling conventions:
- The rendered listing site is a `List Page`; each page is the list of table
  rows (`tr`) of the listing table body, each row the list of its `td` cells.
  A cell records its text and the first link element (`a` tag) it contains,
  if any; a link element records its optional `title` attribute, its text and
  its optional `href` attribute.
- Selenium waits and clicks are deterministic in the model: advancing past
  the last existing page is where the bounded waits time out, which the code
  catches; this is modelled by `paginateFrom` returning `Except.error` with
  the page reached.
- Python string operations `strip`, `lower`, `split`, `startswith` and the
  word-boundary regex search are modelled character-wise on `String.data`
  (ASCII reading of whitespace, case and word characters).
- The external generative API call of `summarize_circular_text` is modelled
  by an explicit `ApiOutcome` argument covering the success envelope and the
  exception branches the code handles.
-/

namespace Sebi

/-! ### Character-level string operations (models of Python str methods) -/

/-- Model of Python `str.strip`: drop whitespace from both ends. -/
def trimChars (l : List Char) : List Char :=
  ((l.dropWhile Char.isWhitespace).reverse.dropWhile Char.isWhitespace).reverse

/-- Model of Python `str.strip` on `String`. -/
def strTrim (s : String) : String :=
  String.mk (trimChars s.data)

/-- Model of Python `str.lower` (ASCII case folding). -/
def lowerChars (l : List Char) : List Char :=
  l.map Char.toLower

/-- Model of Python `str.lower` on `String`. -/
def strLower (s : String) : String :=
  String.mk (lowerChars s.data)

/-- Model of Python `str.startswith`. -/
def pyStartsWith (s pre : String) : Bool :=
  pre.data.isPrefixOf s.data

/-- Model of Python `str.split(',')`: split at every comma, keeping empty
pieces. -/
def splitComma : List Char → List (List Char)
  | [] => [[]]
  | c :: cs =>
    if c = ',' then [] :: splitComma cs
    else
      match splitComma cs with
      | t :: ts => (c :: t) :: ts
      | [] => [[c]]

/-- Word characters for the regex word boundary (ASCII reading of `\w`). -/
def isWordChar (c : Char) : Bool :=
  c.isAlphanum || c = '_'

/-- Whether position `i` of `s` holds a word character (positions outside the
string count as non-word). -/
def wordAt (s : List Char) (i : Nat) : Bool :=
  match s.get? i with
  | none => false
  | some c => isWordChar c

/-- Regex word boundary between positions `i - 1` and `i` of `s`: exactly one
side is a word character. -/
def boundaryAt (s : List Char) (i : Nat) : Bool :=
  ((decide (i ≠ 0)) && wordAt s (i - 1)) != wordAt s i

/-- The keyword `k` occurs at offset `i` of `s` with regex word boundaries on
both sides, as in the pattern built by `find_similar_circulars_local`. -/
def matchesAt (s k : List Char) (i : Nat) : Bool :=
  ((s.drop i).take k.length == k) && boundaryAt s i && boundaryAt s (i + k.length)

/-- The keyword `k` occurs somewhere in `s` as a whole word. -/
def hasWholeWord (s k : List Char) : Bool :=
  (List.range (s.length + 1)).any (fun i => matchesAt s k i)

/-! ### Data model -/

/-- A link element (`a` tag) inside a table cell: optional `title` attribute,
its own text, optional `href` attribute. -/
structure LinkTag where
  attrTitle : Option String
  text : String
  href : Option String
deriving DecidableEq

/-- A table cell (`td`): its text and the first link element inside it. -/
structure Cell where
  text : String
  firstLink : Option LinkTag
deriving DecidableEq

/-- A table row is its list of cells. -/
abbrev Row := List Cell

/-- A listing page is the list of rows of the circulars table body. -/
abbrev Page := List Row

/-- One scraped circular: `Date`, `Title`, `Link` columns of the DataFrame
rows built by the extraction loops. The link is `none` when the `a` tag had
no `href` attribute. -/
structure Record where
  date : String
  title : String
  link : Option String
deriving DecidableEq

/-! ### Page extraction -/

/-- The fixed origin used to rewrite relative links. -/
def baseUrl : String := "https://www.sebi.gov.in"

/-- Link rewriting of the extraction loops: a non-empty href that does not
start with `http://` or `https://` is prefixed with the fixed origin. -/
def absolutize (href : Option String) : Option String :=
  match href with
  | none => none
  | some l =>
    if l != "" && !(pyStartsWith l "http://" || pyStartsWith l "https://") then
      some (baseUrl ++ l)
    else
      some l

/-- The per-row body of the extraction loops: a row with exactly two cells
whose second cell contains a link element yields a record (date is the
trimmed text of the first cell; title is the link's `title` attribute,
falling back to the link's trimmed text; link is the absolutized href); any
other row is skipped. -/
def parseRow (cells : Row) : Option Record :=
  match cells with
  | [c0, c1] =>
    match c1.firstLink with
    | some lt =>
      some { date := strTrim c0.text
             title := lt.attrTitle.getD (strTrim lt.text)
             link := absolutize lt.href }
    | none => none
  | _ => none

/-- Extraction of all records from the rows of one page. -/
def extractRows (rows : Page) : List Record :=
  rows.filterMap parseRow

/-- One run of Next-click cycles: from page `current`, perform `k` advances.
An advance succeeds exactly when a further page exists (`current < numPages`);
otherwise the bounded waits fail and the loop is abandoned at the page
reached (`Except.error current`). -/
def paginateSteps (numPages : Nat) : Nat → Nat → Except Nat Nat
  | current, 0 => Except.ok current
  | current, k + 1 =>
    if current < numPages then paginateSteps numPages (current + 1) k
    else Except.error current

/-- The pagination loop of `extract_sebi_circulars_on_page`: starting from
page `current`, click Next until page `target` is reached, which takes
`target - current` advances (none when the target is not ahead). -/
def paginateFrom (numPages : Nat) (current : Nat) (target : Int) : Except Nat Nat :=
  paginateSteps numPages current (target - current).toNat

/-- Model of `extract_sebi_circulars_on_page`: non-positive page numbers are
rejected with an empty result; a pagination failure yields an empty result;
otherwise the rows of the target page are extracted. -/
def extract_sebi_circulars_on_page (site : List Page) (page_number : Int) : List Record :=
  if page_number ≤ 0 then []
  else
    match paginateFrom site.length 1 page_number with
    | Except.error _ => []
    | Except.ok _ =>
      match site.get? (page_number.toNat - 1) with
      | some rows => extractRows rows
      | none => []

/-! ### Bulk harvesting -/

/-- The page loop of `scrape_recent_circulars`: extract each page in turn;
after a page, advancing to the next page fails (and the loop breaks) exactly
when no further page exists. -/
def scrapeLoop : List Page → Nat → List Record
  | _, 0 => []
  | [], _ => []
  | p :: rest, n + 1 => extractRows p ++ scrapeLoop rest n

/-- Model of `DataFrame.drop_duplicates(subset=['Link'])`: keep the first
record for each link value, dropping later records whose link was already
seen. -/
def dedupByLink : List Record → List (Option String) → List Record
  | [], _ => []
  | r :: rs, seen =>
    if r.link ∈ seen then dedupByLink rs seen
    else r :: dedupByLink rs (r.link :: seen)

/-- Model of `scrape_recent_circulars`: non-positive page counts are rejected
with an empty result; otherwise the first `num_pages` pages (or all pages, if
fewer exist) are extracted and the result is deduplicated by link. -/
def scrape_recent_circulars (site : List Page) (num_pages : Int) : List Record :=
  if num_pages ≤ 0 then []
  else dedupByLink (scrapeLoop site num_pages.toNat) []

/-! ### Date parsing and ordering for the similarity search -/

/-- Numeric value of a list of decimal digits. -/
def digitsToNat (l : List Char) : Nat :=
  l.foldl (fun a c => a * 10 + (c.toNat - 48)) 0

/-- Month number of a case-insensitive English month abbreviation, as matched
by the strptime directive `%b`. -/
def monthNum (s : List Char) : Option Nat :=
  match String.mk (lowerChars s) with
  | "jan" => some 1
  | "feb" => some 2
  | "mar" => some 3
  | "apr" => some 4
  | "may" => some 5
  | "jun" => some 6
  | "jul" => some 7
  | "aug" => some 8
  | "sep" => some 9
  | "oct" => some 10
  | "nov" => some 11
  | "dec" => some 12
  | _ => none

/-- Gregorian leap year test. -/
def isLeap (y : Nat) : Bool :=
  (y % 4 == 0 && y % 100 != 0) || y % 400 == 0

/-- Number of days of month `m` in year `y`. -/
def daysInMonth (m y : Nat) : Nat :=
  if m = 2 then (if isLeap y then 29 else 28)
  else if m = 4 ∨ m = 6 ∨ m = 9 ∨ m = 11 then 30
  else 31

/-- Split a character list into maximal whitespace-free tokens. -/
def wsTokensAux (acc : List Char) : List Char → List (List Char)
  | [] => if acc.isEmpty then [] else [acc.reverse]
  | c :: cs =>
    if c.isWhitespace then
      if acc.isEmpty then wsTokensAux [] cs
      else acc.reverse :: wsTokensAux [] cs
    else wsTokensAux (c :: acc) cs

/-- Model of `pd.to_datetime(date, format=dd-mon-yyyy, errors=coerce)` used to
sort the similarity results: a 1-2 digit day, a case-insensitive month
abbreviation and a 4-digit year, separated by whitespace, validated against
the calendar; the result is a single natural number that orders dates
chronologically, and `none` models `NaT`. -/
def parseDate (s : String) : Option Nat :=
  match wsTokensAux [] s.data with
  | [d, mo, y] =>
    if 1 ≤ d.length && d.length ≤ 2 && d.all Char.isDigit
        && y.length == 4 && y.all Char.isDigit then
      match monthNum mo with
      | some m =>
        let dn := digitsToNat d
        let yn := digitsToNat y
        if 1 ≤ yn && 1 ≤ dn && dn ≤ daysInMonth m yn then
          some (yn * 512 + m * 32 + dn)
        else none
      | none => none
    else none
  | _ => none

/-- Lexicographic code-point comparison of character lists: the order pandas
uses on the `Title` column (Python string comparison). -/
def lexLe : List Char → List Char → Bool
  | [], _ => true
  | _ :: _, [] => false
  | a :: as, b :: bs =>
    if a.toNat < b.toNat then true
    else if b.toNat < a.toNat then false
    else lexLe as bs

/-- The sort order of `find_similar_circulars_local`: parsed date descending
first, then title ascending; records with unparseable dates come after all
records with parseable dates. -/
def recLE (a b : Record) : Bool :=
  match parseDate a.date, parseDate b.date with
  | some d1, some d2 =>
    decide (d2 < d1) || (decide (d1 = d2) && lexLe a.title.data b.title.data)
  | some _, none => true
  | none, some _ => false
  | none, none => lexLe a.title.data b.title.data

/-- Propositional form of `recLE`, used as the sorting relation. -/
def recOrder (a b : Record) : Prop :=
  recLE a b = true

instance : DecidableRel recOrder :=
  fun a b => inferInstanceAs (Decidable (recLE a b = true))

/-- The sort applied by `find_similar_circulars_local` (model of
`sort_values(by=[Date_Parsed, Title], ascending=[False, True])`). -/
def sortRecs (l : List Record) : List Record :=
  List.insertionSort recOrder l

/-! ### Keyword parsing and whole-word matching -/

/-- Model of the keyword parsing of `find_similar_circulars_local`: split the
CSV on commas, strip each piece, drop empty pieces, lower-case the rest. -/
def parseKeywords (s : String) : List String :=
  (((splitComma s.data).map (fun k => String.mk (trimChars k))).filter
    (fun k => k != "")).map strLower

/-- Model of the disjunctive word-boundary regex test applied to the
lower-cased title: some keyword occurs in the title as a whole word. -/
def titleMatches (keywords : List String) (title : String) : Bool :=
  keywords.any (fun k => hasWholeWord (lowerChars title.data) k.data)

/-- Model of `find_similar_circulars_local`: empty corpus or blank keyword
CSV yields an empty result, as does an empty parsed keyword list; otherwise
keep the records whose title matches some keyword as a whole word and whose
trimmed title differs from the trimmed original title, sorted by date
descending then title ascending. -/
def find_similar_circulars_local (keywords_str : String) (all_circulars_df : List Record)
    (original_title : String) : List Record :=
  if all_circulars_df.isEmpty || strTrim keywords_str == "" then []
  else if (parseKeywords keywords_str).isEmpty then []
  else
    sortRecs (all_circulars_df.filter (fun r =>
      titleMatches (parseKeywords keywords_str) r.title &&
        (strTrim r.title != strTrim original_title)))

/-! ### Summarization client -/

/-- One element of the `parts` array of the API response. -/
structure ApiPart where
  text : Option String
deriving DecidableEq

/-- The `content` object of one candidate of the API response. -/
structure ApiContent where
  parts : Option (List ApiPart)
deriving DecidableEq

/-- One element of the `candidates` array of the API response. -/
structure ApiCandidate where
  content : Option ApiContent
deriving DecidableEq

/-- The decoded JSON envelope of the generative API response. -/
structure GenResult where
  candidates : Option (List ApiCandidate)
deriving DecidableEq

/-- Outcome of the network interaction of `summarize_circular_text`: a decoded
response envelope, a request exception (covering HTTP errors raised by
`raise_for_status`), a JSON decode failure, or any other exception. -/
inductive ApiOutcome where
  | ok (result : GenResult)
  | requestError (msg : String)
  | decodeError (msg : String)
  | otherError (msg : String)
deriving DecidableEq

/-- The nested envelope check of `summarize_circular_text`: the first part of
the first candidate's content, with the fixed fallback when its `text` field
is missing; `none` when the envelope lacks the expected structure. -/
def extractSummary (result : GenResult) : Option String :=
  match result.candidates with
  | some (c :: _) =>
    match c.content with
    | some ct =>
      match ct.parts with
      | some (p :: _) => some (p.text.getD "No summary text found.")
      | _ => none
    | none => none
  | _ => none

/-- Model of `summarize_circular_text`: blank input returns the fixed guidance
string before any network interaction; otherwise the result is determined by
the network outcome, with the source link appended on success. -/
def summarize_circular_text (circular_text : String) (circular_link : String)
    (api : ApiOutcome) : String :=
  if strTrim circular_text == "" then "Please provide text to summarize."
  else
    match api with
    | ApiOutcome.ok result =>
      match extractSummary result with
      | some summary_text =>
        summary_text ++ "\n\n[Original Circular Link](" ++ circular_link ++ ")"
      | none => "Failed to get summary: Unexpected API response structure."
    | ApiOutcome.requestError e => "An error occurred while summarizing: " ++ e
    | ApiOutcome.decodeError e => "An error occurred while processing API response: " ++ e
    | ApiOutcome.otherError e => "An unexpected error occurred: " ++ e

/-! ### Lemmas on the lexicographic title order -/

theorem lexLe_cons (x y : Char) (xs ys : List Char) :
    lexLe (x :: xs) (y :: ys) = true ↔
      x.toNat < y.toNat ∨ (x.toNat = y.toNat ∧ lexLe xs ys = true) := by
  simp only [lexLe]
  split_ifs with h1 h2
  · simp [h1]
  · constructor
    · intro h; simp at h
    · intro h; rcases h with h | ⟨h, _⟩ <;> omega
  · have hxy : x.toNat = y.toNat := by omega
    simp [hxy]

theorem lexLe_total : ∀ a b : List Char, lexLe a b = true ∨ lexLe b a = true := by
  intro a
  induction a with
  | nil => intro b; left; simp [lexLe]
  | cons x xs ih =>
    intro b
    cases b with
    | nil => right; simp [lexLe]
    | cons y ys =>
      rw [lexLe_cons, lexLe_cons]
      rcases Nat.lt_trichotomy x.toNat y.toNat with h | h | h
      · exact Or.inl (Or.inl h)
      · rcases ih ys with hl | hl
        · exact Or.inl (Or.inr ⟨h, hl⟩)
        · exact Or.inr (Or.inr ⟨h.symm, hl⟩)
      · exact Or.inr (Or.inl h)

theorem lexLe_trans : ∀ {a b c : List Char},
    lexLe a b = true → lexLe b c = true → lexLe a c = true := by
  intro a
  induction a with
  | nil => intro b c _ _; simp [lexLe]
  | cons x xs ih =>
    intro b c h1 h2
    match b, c with
    | [], _ => simp [lexLe] at h1
    | y :: ys, [] => simp [lexLe] at h2
    | y :: ys, z :: zs =>
      rw [lexLe_cons] at h1 h2 ⊢
      rcases h1 with h1 | ⟨e1, l1⟩ <;> rcases h2 with h2 | ⟨e2, l2⟩
      · exact Or.inl (by omega)
      · exact Or.inl (by omega)
      · exact Or.inl (by omega)
      · exact Or.inr ⟨by omega, ih l1 l2⟩

/-! ### Lemmas on the record sort order -/

theorem recLE_total (a b : Record) : recLE a b = true ∨ recLE b a = true := by
  unfold recLE
  rcases hda : parseDate a.date with _ | d1 <;>
    rcases hdb : parseDate b.date with _ | d2 <;>
      simp only [hda, hdb]
  · exact lexLe_total _ _
  · exact Or.inr trivial
  · exact Or.inl trivial
  · rcases Nat.lt_trichotomy d1 d2 with h | h | h
    · refine Or.inr ?_
      simp only [Bool.or_eq_true, decide_eq_true_eq]
      exact Or.inl h
    · rcases lexLe_total a.title.data b.title.data with hl | hl
      · refine Or.inl ?_
        simp only [Bool.or_eq_true, Bool.and_eq_true, decide_eq_true_eq]
        exact Or.inr ⟨h, hl⟩
      · refine Or.inr ?_
        simp only [Bool.or_eq_true, Bool.and_eq_true, decide_eq_true_eq]
        exact Or.inr ⟨h.symm, hl⟩
    · refine Or.inl ?_
      simp only [Bool.or_eq_true, decide_eq_true_eq]
      exact Or.inl h

theorem recLE_trans {a b c : Record} (h1 : recLE a b = true) (h2 : recLE b c = true) :
    recLE a c = true := by
  unfold recLE at h1 h2 ⊢
  rcases hda : parseDate a.date with _ | d1 <;>
    rcases hdb : parseDate b.date with _ | d2 <;>
      rcases hdc : parseDate c.date with _ | d3 <;>
        simp only [hda, hdb, hdc] at h1 h2 ⊢
  · exact lexLe_trans h1 h2
  · exact h2
  · exact absurd h1 (by simp)
  · exact h1
  · exact absurd h2 (by simp)
  · simp only [Bool.or_eq_true, Bool.and_eq_true, decide_eq_true_eq] at h1 h2 ⊢
    rcases h1 with h1 | ⟨e1, l1⟩ <;> rcases h2 with h2 | ⟨e2, l2⟩
    · exact Or.inl (by omega)
    · exact Or.inl (by omega)
    · exact Or.inl (by omega)
    · exact Or.inr ⟨by omega, lexLe_trans l1 l2⟩

instance : IsTotal Record recOrder :=
  ⟨fun a b => recLE_total a b⟩

instance : IsTrans Record recOrder :=
  ⟨fun _ _ _ h1 h2 => recLE_trans h1 h2⟩

/-! ### Lemmas on deduplication and the harvest loop -/

theorem scrapeLoop_nil : ∀ n : Nat, scrapeLoop [] n = [] := by
  intro n; cases n <;> rfl

theorem mem_dedupByLink {r : Record} : ∀ {l : List Record} {seen : List (Option String)},
    r ∈ dedupByLink l seen → r ∈ l := by
  intro l
  induction l with
  | nil => intro seen h; simp [dedupByLink] at h
  | cons x xs ih =>
    intro seen h
    simp only [dedupByLink] at h
    split_ifs at h with hc
    · exact List.mem_cons_of_mem _ (ih h)
    · rcases List.mem_cons.mp h with h | h
      · exact h ▸ List.mem_cons_self _ _
      · exact List.mem_cons_of_mem _ (ih h)

theorem dedupByLink_link_not_seen {r : Record} : ∀ {l : List Record}
    {seen : List (Option String)}, r ∈ dedupByLink l seen → r.link ∉ seen := by
  intro l
  induction l with
  | nil => intro seen h; simp [dedupByLink] at h
  | cons x xs ih =>
    intro seen h
    simp only [dedupByLink] at h
    split_ifs at h with hc
    · exact ih h
    · rcases List.mem_cons.mp h with h | h
      · exact h ▸ hc
      · intro hmem
        exact ih h (List.mem_cons_of_mem _ hmem)

theorem dedupByLink_pairwise : ∀ (l : List Record) (seen : List (Option String)),
    (dedupByLink l seen).Pairwise (fun a b => a.link ≠ b.link) := by
  intro l
  induction l with
  | nil => intro seen; simp [dedupByLink]
  | cons x xs ih =>
    intro seen
    simp only [dedupByLink]
    split_ifs with hc
    · exact ih seen
    · refine List.Pairwise.cons ?_ (ih _)
      intro b hb he
      exact dedupByLink_link_not_seen hb (he ▸ List.mem_cons_self _ _)

theorem dedupByLink_length : ∀ (l : List Record) (seen : List (Option String)),
    (dedupByLink l seen).length ≤ l.length := by
  intro l
  induction l with
  | nil => intro seen; simp [dedupByLink]
  | cons x xs ih =>
    intro seen
    simp only [dedupByLink]
    split_ifs with hc
    · exact le_trans (ih seen) (Nat.le_succ _)
    · simpa using ih (x.link :: seen)

theorem dedupByLink_sublist : ∀ (l : List Record) (seen : List (Option String)),
    List.Sublist (dedupByLink l seen) l := by
  intro l
  induction l with
  | nil => intro seen; simp [dedupByLink]
  | cons x xs ih =>
    intro seen
    simp only [dedupByLink]
    split_ifs with hc
    · exact (ih seen).cons x
    · exact (ih (x.link :: seen)).cons₂ x

theorem dedupByLink_covers {r : Record} : ∀ {l : List Record}
    {seen : List (Option String)}, r ∈ l → r.link ∉ seen →
    ∃ q ∈ dedupByLink l seen, q.link = r.link := by
  intro l
  induction l with
  | nil => intro seen h _; simp at h
  | cons x xs ih =>
    intro seen hmem hseen
    simp only [dedupByLink]
    split_ifs with hc
    · rcases List.mem_cons.mp hmem with h | h
      · exact absurd (h ▸ hc) hseen
      · exact ih h hseen
    · rcases List.mem_cons.mp hmem with h | h
      · exact ⟨x, List.mem_cons_self _ _, (h ▸ rfl : x.link = r.link)⟩
      · by_cases hrx : r.link = x.link
        · exact ⟨x, List.mem_cons_self _ _, hrx.symm⟩
        · have hns : r.link ∉ x.link :: seen := by
            intro hm
            rcases List.mem_cons.mp hm with hm | hm
            · exact hrx hm
            · exact hseen hm
          rcases ih h hns with ⟨q, hq, hql⟩
          exact ⟨q, List.mem_cons_of_mem _ hq, hql⟩

theorem scrapeLoop_length : ∀ (site : List Page) (n m : Nat),
    (∀ p ∈ site, p.length ≤ m) → (scrapeLoop site n).length ≤ n * m := by
  intro site
  induction site with
  | nil => intro n m _; rw [scrapeLoop_nil]; simp
  | cons p rest ih =>
    intro n m hm
    cases n with
    | zero => simp [scrapeLoop]
    | succ k =>
      simp only [scrapeLoop, List.length_append]
      have h1 : (extractRows p).length ≤ m :=
        le_trans (List.length_filterMap_le _ _) (hm p (List.mem_cons_self _ _))
      have h2 := ih k m (fun q hq => hm q (List.mem_cons_of_mem _ hq))
      rw [Nat.succ_mul]
      omega

theorem scrapeLoop_overrun : ∀ (site : List Page) (n : Nat), site.length ≤ n →
    scrapeLoop site n = scrapeLoop site site.length := by
  intro site
  induction site with
  | nil => intro n _; rw [scrapeLoop_nil]; rfl
  | cons p rest ih =>
    intro n hn
    cases n with
    | zero => simp at hn
    | succ k =>
      simp only [scrapeLoop, List.length_cons]
      rw [ih k (by simpa using hn)]

theorem scrapeLoop_mem : ∀ {site : List Page} {n : Nat} {r : Record},
    r ∈ scrapeLoop site n → ∃ p ∈ site, r ∈ extractRows p := by
  intro site
  induction site with
  | nil => intro n r h; rw [scrapeLoop_nil] at h; simp at h
  | cons p rest ih =>
    intro n r h
    cases n with
    | zero => simp [scrapeLoop] at h
    | succ k =>
      simp only [scrapeLoop, List.mem_append] at h
      rcases h with h | h
      · exact ⟨p, List.mem_cons_self _ _, h⟩
      · rcases ih h with ⟨q, hq, hr⟩
        exact ⟨q, List.mem_cons_of_mem _ hq, hr⟩

/-- C1: for every pageCount at least 1, `scrape_recent_circulars` returns a
corpus whose links are pairwise distinct, obtained from the collected records
by keeping the first occurrence of each link in collection order (a sublist
of the collected sequence that covers every collected link), with length at
most pageCount times any bound on the rows per page; and when fewer pages
exist than requested, the result equals the successful harvest of exactly
the available pages (early termination is success, nothing is raised). -/
theorem scrape_recent_circulars_spec (site : List Page) (num_pages : Int) (m : Nat)
    (hn : 1 ≤ num_pages) (hm : ∀ p ∈ site, p.length ≤ m) :
    (scrape_recent_circulars site num_pages).Pairwise (fun a b => a.link ≠ b.link) ∧
    (scrape_recent_circulars site num_pages).length ≤ num_pages.toNat * m ∧
    List.Sublist (scrape_recent_circulars site num_pages) (scrapeLoop site num_pages.toNat) ∧
    (∀ r ∈ scrapeLoop site num_pages.toNat,
      ∃ q ∈ scrape_recent_circulars site num_pages, q.link = r.link) ∧
    ((site.length : Int) < num_pages →
      scrape_recent_circulars site num_pages = scrape_recent_circulars site (site.length : Int)) := by
  have hguard : ¬(num_pages ≤ 0) := by omega
  have heq : scrape_recent_circulars site num_pages =
      dedupByLink (scrapeLoop site num_pages.toNat) [] := by
    unfold scrape_recent_circulars
    rw [if_neg hguard]
  refine ⟨?_, ?_, ?_, ?_, ?_⟩
  · rw [heq]; exact dedupByLink_pairwise _ _
  · rw [heq]; exact le_trans (dedupByLink_length _ _) (scrapeLoop_length site _ m hm)
  · rw [heq]; exact dedupByLink_sublist _ _
  · intro r hr
    rw [heq]
    exact dedupByLink_covers hr (by simp)
  · intro hlt
    rcases Nat.eq_zero_or_pos site.length with h0 | hpos
    · have hsite : site = [] := List.length_eq_zero.mp h0
      subst hsite
      rw [heq, scrapeLoop_nil]
      simp [scrape_recent_circulars, dedupByLink]
    · have hg2 : ¬((site.length : Int) ≤ 0) := by omega
      have heq2 : scrape_recent_circulars site (site.length : Int) =
          dedupByLink (scrapeLoop site ((site.length : Int)).toNat) [] := by
        unfold scrape_recent_circulars
        rw [if_neg hg2]
      rw [heq, heq2, Int.toNat_natCast, scrapeLoop_overrun site num_pages.toNat (by omega)]

/-- Concrete one-page site used by the witness of the harvest theorem. -/
def w1Site : List Page :=
  [[[⟨"01 Jan 2024", none⟩, ⟨"t", some ⟨some "A", "A", some "/a"⟩⟩],
    [⟨"02 Jan 2024", none⟩, ⟨"t", some ⟨some "B", "B", some "/a"⟩⟩]]]

theorem scrape_recent_circulars_spec_witness :
    (scrape_recent_circulars w1Site 2).Pairwise (fun a b => a.link ≠ b.link) ∧
    (scrape_recent_circulars w1Site 2).length ≤ (2 : Int).toNat * 2 ∧
    scrape_recent_circulars w1Site 2 = scrape_recent_circulars w1Site ((w1Site.length : Nat) : Int) :=
  ⟨(scrape_recent_circulars_spec w1Site 2 2 (by decide) (by decide)).1,
   (scrape_recent_circulars_spec w1Site 2 2 (by decide) (by decide)).2.1,
   (scrape_recent_circulars_spec w1Site 2 2 (by decide) (by decide)).2.2.2.2 (by decide)⟩

/-! ### Lemmas on pagination -/

theorem paginateSteps_exhausts (numPages : Nat) : ∀ (current k : Nat),
    current ≤ numPages → numPages < current + k →
    paginateSteps numPages current k = Except.error numPages := by
  intro current k
  induction k generalizing current with
  | zero => intro hle hlt; omega
  | succ k ih =>
    intro hle hlt
    simp only [paginateSteps]
    split_ifs with hc
    · exact ih (current + 1) hc (by omega)
    · have : current = numPages := by omega
      rw [this]

theorem paginateFrom_exhausts (numPages : Nat) (target : Int) (current : Nat)
    (hle : current ≤ numPages) (hlt : (numPages : Int) < target) :
    paginateFrom numPages current target = Except.error numPages := by
  unfold paginateFrom
  exact paginateSteps_exhausts numPages current _ hle (by omega)

/-- C5: when the listing has fewer pages than the requested target page, the
pagination loop fails after exhausting the existing pages, carrying the page
it reached (the number of existing pages); no retry happens and no partial
state is returned — the extraction result is empty. In particular advancing
to page 3 of a 2-page listing fails having reached page 2. -/
theorem pagination_exhausted_spec (site : List Page) (target : Int)
    (h1 : 1 ≤ site.length) (h2 : (site.length : Int) < target) :
    paginateFrom site.length 1 target = Except.error site.length ∧
    extract_sebi_circulars_on_page site target = [] ∧
    paginateFrom 2 1 3 = Except.error 2 := by
  have hp := paginateFrom_exhausts site.length target 1 h1 h2
  refine ⟨hp, ?_, rfl⟩
  unfold extract_sebi_circulars_on_page
  rw [if_neg (show ¬target ≤ 0 by omega), hp]

/-- Concrete two-page site (with no data rows) used by pagination witnesses. -/
def w5Site : List Page := [[], []]

theorem pagination_exhausted_spec_witness :
    paginateFrom 2 1 3 = Except.error 2 ∧
    extract_sebi_circulars_on_page w5Site 3 = [] :=
  ⟨(pagination_exhausted_spec w5Site 3 (by decide) (by decide)).2.2,
   (pagination_exhausted_spec w5Site 3 (by decide) (by decide)).2.1⟩

/-- C10: non-positive page numbers and non-positive page counts are absorbed
into empty results by both entry points, raising nothing. -/
theorem nonpositive_page_spec (site : List Page) (page_number num_pages : Int)
    (h1 : page_number ≤ 0) (h2 : num_pages ≤ 0) :
    extract_sebi_circulars_on_page site page_number = [] ∧
    scrape_recent_circulars site num_pages = [] := by
  constructor
  · unfold extract_sebi_circulars_on_page
    rw [if_pos h1]
  · unfold scrape_recent_circulars
    rw [if_pos h2]

theorem nonpositive_page_spec_witness :
    extract_sebi_circulars_on_page w5Site 0 = [] ∧
    scrape_recent_circulars w5Site (-1) = [] :=
  ⟨(nonpositive_page_spec w5Site 0 (-1) (by decide) (by decide)).1,
   (nonpositive_page_spec w5Site 0 (-1) (by decide) (by decide)).2⟩

/-! ### Lemmas on row parsing and extraction -/

theorem parseRow_eq_some {row : Row} {r : Record} (h : parseRow row = some r) :
    ∃ c0 c1 lt, row = [c0, c1] ∧ c1.firstLink = some lt ∧
      r = ⟨strTrim c0.text, lt.attrTitle.getD (strTrim lt.text), absolutize lt.href⟩ := by
  match row with
  | [] => simp [parseRow] at h
  | [c] => simp [parseRow] at h
  | [c0, c1] =>
    match hl : c1.firstLink with
    | none => simp [parseRow, hl] at h
    | some lt =>
      refine ⟨c0, c1, lt, rfl, hl, ?_⟩
      simp only [parseRow, hl, Option.some.injEq] at h
      exact h.symm
  | c0 :: c1 :: c2 :: rest => simp [parseRow] at h

theorem parseRow_not_two {row : Row} (h : row.length ≠ 2) : parseRow row = none := by
  match row with
  | [] => rfl
  | [c] => rfl
  | [c0, c1] => exact absurd rfl h
  | c0 :: c1 :: c2 :: rest => rfl

theorem parseRow_no_link (c0 c1 : Cell) (h : c1.firstLink = none) :
    parseRow [c0, c1] = none := by
  simp [parseRow, h]

theorem mem_extractRows {p : Page} {r : Record} (h : r ∈ extractRows p) :
    ∃ row ∈ p, parseRow row = some r := by
  unfold extractRows at h
  exact List.mem_filterMap.mp h

theorem mem_extract_on_page {site : List Page} {n : Int} {r : Record}
    (h : r ∈ extract_sebi_circulars_on_page site n) : ∃ p ∈ site, r ∈ extractRows p := by
  unfold extract_sebi_circulars_on_page at h
  split_ifs at h with h0
  · simp at h
  · cases hpag : paginateFrom site.length 1 n with
    | error e => rw [hpag] at h; simp at h
    | ok k =>
      rw [hpag] at h
      cases hg : site.get? (n.toNat - 1) with
      | none => rw [hg] at h; simp at h
      | some rows =>
        rw [hg] at h
        exact ⟨rows, List.get?_mem hg, h⟩

theorem mem_scrape {site : List Page} {n : Int} {r : Record}
    (h : r ∈ scrape_recent_circulars site n) : ∃ p ∈ site, r ∈ extractRows p := by
  unfold scrape_recent_circulars at h
  split_ifs at h with h0
  · simp at h
  · exact scrapeLoop_mem (mem_dedupByLink h)

/-- The link invariant of the specification: a stored link is absent, empty,
or an absolute http(s) URL. -/
def linkOK (r : Record) : Prop :=
  match r.link with
  | none => True
  | some l => l = "" ∨ pyStartsWith l "http://" = true ∨ pyStartsWith l "https://" = true

theorem absolutize_cases (href : Option String) (l : String)
    (h : absolutize href = some l) :
    l = "" ∨ pyStartsWith l "http://" = true ∨ pyStartsWith l "https://" = true := by
  match href with
  | none => simp [absolutize] at h
  | some s =>
    simp only [absolutize] at h
    split_ifs at h with hc
    · have hl : l = baseUrl ++ s := (Option.some.inj h).symm
      right; right
      rw [hl]
      unfold pyStartsWith
      have hdata : (baseUrl ++ s).data = "https://".data ++ ("www.sebi.gov.in".data ++ s.data) := by
        have : (baseUrl ++ s).data = baseUrl.data ++ s.data := String.data_append _ _
        rw [this]
        rfl
      rw [hdata]
      exact List.isPrefixOf_iff_prefix.mpr (List.prefix_append _ _)
    · have hsl : s = l := Option.some.inj h
      subst hsl
      by_cases hse : s = ""
      · exact Or.inl hse
      · by_cases h1 : pyStartsWith s "http://" = true
        · exact Or.inr (Or.inl h1)
        · by_cases h2 : pyStartsWith s "https://" = true
          · exact Or.inr (Or.inr h2)
          · exfalso
            apply hc
            simp [hse, h1, h2]

/-- C6: every record stored by single-page extraction or by harvesting has a
link that is absent, empty, or starting with http:// or https://; relative
hrefs are rewritten against the fixed origin before storage. -/
theorem links_absolute_spec (site : List Page) (n : Int) (r : Record) :
    (r ∈ extract_sebi_circulars_on_page site n → linkOK r) ∧
    (r ∈ scrape_recent_circulars site n → linkOK r) := by
  have core : ∀ {p : Page}, r ∈ extractRows p → linkOK r := by
    intro p hp
    rcases mem_extractRows hp with ⟨row, _, hparse⟩
    rcases parseRow_eq_some hparse with ⟨c0, c1, lt, _, _, hr⟩
    subst hr
    unfold linkOK
    cases ha : absolutize lt.href with
    | none => simp [ha]
    | some l =>
      simp only [ha]
      exact absolutize_cases lt.href l ha
  constructor
  · intro h
    rcases mem_extract_on_page h with ⟨p, _, hp⟩
    exact core hp
  · intro h
    rcases mem_scrape h with ⟨p, _, hp⟩
    exact core hp

theorem links_absolute_spec_witness :
    linkOK ⟨"01 Jan 2024", "A", some "https://www.sebi.gov.in/a"⟩ :=
  (links_absolute_spec w1Site 1 ⟨"01 Jan 2024", "A", some "https://www.sebi.gov.in/a"⟩).1
    (by decide)

/-- C8: a row with exactly two cells whose second cell holds a link element
parses to the record whose date is the trimmed text of the first cell and
whose title is the link's title attribute when present, else the link's own
trimmed text; rows with a different cell count are silently skipped; and the
scenario row (01 Jan 2024, Circular on Short Selling, /x1) yields exactly one
record whose link is https://www.sebi.gov.in/x1. -/
theorem parse_row_spec :
    (∀ (c0 c1 : Cell) (lt : LinkTag), c1.firstLink = some lt →
      parseRow [c0, c1] =
        some ⟨strTrim c0.text, lt.attrTitle.getD (strTrim lt.text), absolutize lt.href⟩) ∧
    (∀ row : Row, row.length ≠ 2 → parseRow row = none) ∧
    extractRows [[⟨"01 Jan 2024", none⟩,
        ⟨"Circular on Short Selling",
         some ⟨some "Circular on Short Selling", "Circular on Short Selling", some "/x1"⟩⟩]] =
      [⟨"01 Jan 2024", "Circular on Short Selling", some "https://www.sebi.gov.in/x1"⟩] := by
  refine ⟨?_, ?_, ?_⟩
  · intro c0 c1 lt h
    simp [parseRow, h]
  · intro row h
    exact parseRow_not_two h
  · decide

theorem parse_row_spec_witness :
    parseRow [⟨"d", none⟩, ⟨"t", some ⟨none, "T", none⟩⟩] =
      some ⟨strTrim "d", (none : Option String).getD (strTrim "T"), absolutize none⟩ ∧
    parseRow [⟨"only one cell", none⟩] = none :=
  ⟨parse_row_spec.1 ⟨"d", none⟩ ⟨"t", some ⟨none, "T", none⟩⟩ ⟨none, "T", none⟩ rfl,
   parse_row_spec.2.1 [⟨"only one cell", none⟩] (by decide)⟩

/-- C9: a two-cell row whose second cell has no link element yields no
record, and every record produced by page extraction or harvesting
originates from a two-cell row whose second cell contained a link element. -/
theorem skipped_without_link_spec :
    (∀ c0 c1 : Cell, c1.firstLink = none → parseRow [c0, c1] = none) ∧
    (∀ (p : Page) (r : Record), r ∈ extractRows p →
      ∃ row ∈ p, ∃ c0 c1 lt, row = [c0, c1] ∧ c1.firstLink = some lt ∧
        parseRow row = some r) ∧
    (∀ (site : List Page) (n : Int) (r : Record),
      r ∈ extract_sebi_circulars_on_page site n →
      ∃ p ∈ site, ∃ row ∈ p, ∃ c0 c1 lt, row = [c0, c1] ∧ c1.firstLink = some lt ∧
        parseRow row = some r) ∧
    (∀ (site : List Page) (n : Int) (r : Record), r ∈ scrape_recent_circulars site n →
      ∃ p ∈ site, ∃ row ∈ p, ∃ c0 c1 lt, row = [c0, c1] ∧ c1.firstLink = some lt ∧
        parseRow row = some r) := by
  have origin : ∀ {p : Page} {r : Record}, r ∈ extractRows p →
      ∃ row ∈ p, ∃ c0 c1 lt, row = [c0, c1] ∧ c1.firstLink = some lt ∧
        parseRow row = some r := by
    intro p r h
    rcases mem_extractRows h with ⟨row, hrow, hparse⟩
    rcases parseRow_eq_some hparse with ⟨c0, c1, lt, hshape, hlink, _⟩
    exact ⟨row, hrow, c0, c1, lt, hshape, hlink, hparse⟩
  refine ⟨fun c0 c1 h => parseRow_no_link c0 c1 h, fun p r h => origin h, ?_, ?_⟩
  · intro site n r h
    rcases mem_extract_on_page h with ⟨p, hp, hr⟩
    rcases origin hr with ⟨row, hrow, rest⟩
    exact ⟨p, hp, row, hrow, rest⟩
  · intro site n r h
    rcases mem_scrape h with ⟨p, hp, hr⟩
    rcases origin hr with ⟨row, hrow, rest⟩
    exact ⟨p, hp, row, hrow, rest⟩

theorem skipped_without_link_spec_witness :
    parseRow [⟨"d", none⟩, ⟨"no link in this cell", none⟩] = none ∧
    (∃ p ∈ w1Site, ∃ row ∈ p, ∃ c0 c1 lt, row = [c0, c1] ∧ c1.firstLink = some lt ∧
      parseRow row = some ⟨"01 Jan 2024", "A", some "https://www.sebi.gov.in/a"⟩) :=
  ⟨skipped_without_link_spec.1 ⟨"d", none⟩ ⟨"no link in this cell", none⟩ rfl,
   skipped_without_link_spec.2.2.2 w1Site 1 ⟨"01 Jan 2024", "A", some "https://www.sebi.gov.in/a"⟩
     (by decide)⟩

/-! ### Lemmas on keyword parsing and the similarity search -/

theorem trimChars_nil {l : List Char} (h : trimChars l = []) :
    ∀ c ∈ l, c.isWhitespace = true := by
  unfold trimChars at h
  rw [List.reverse_eq_nil_iff, List.dropWhile_eq_nil_iff] at h
  intro c hc
  have hl : l = l.takeWhile Char.isWhitespace ++ l.dropWhile Char.isWhitespace :=
    (List.takeWhile_append_dropWhile _ _).symm
  rw [hl] at hc
  rcases List.mem_append.mp hc with hc | hc
  · exact List.mem_takeWhile_imp hc
  · exact h c (List.mem_reverse.mpr hc)

theorem splitComma_no_comma : ∀ {l : List Char}, (∀ c ∈ l, c ≠ ',') →
    splitComma l = [l] := by
  intro l
  induction l with
  | nil => intro _; rfl
  | cons c cs ih =>
    intro h
    have hc : c ≠ ',' := h c (List.mem_cons_self _ _)
    simp only [splitComma, if_neg hc]
    rw [ih (fun x hx => h x (List.mem_cons_of_mem _ hx))]

theorem parseKeywords_of_blank {s : String} (h : trimChars s.data = []) :
    parseKeywords s = [] := by
  have hws := trimChars_nil h
  have hnc : ∀ c ∈ s.data, c ≠ ',' := by
    intro c hc he
    have hw := hws c hc
    rw [he] at hw
    simp at hw
  unfold parseKeywords
  rw [splitComma_no_comma hnc]
  simp only [List.map_cons, List.map_nil, h]
  decide

theorem mem_sortRecs {r : Record} {l : List Record} : r ∈ sortRecs l ↔ r ∈ l :=
  (List.perm_insertionSort recOrder l).mem_iff

theorem mem_find_similar {kstr : String} {df : List Record} {t : String} {r : Record} :
    r ∈ find_similar_circulars_local kstr df t ↔
      (r ∈ df ∧ titleMatches (parseKeywords kstr) r.title = true ∧
        strTrim r.title ≠ strTrim t) := by
  unfold find_similar_circulars_local
  split_ifs with h1 h2
  · have h1' : df.isEmpty = true ∨ (strTrim kstr == "") = true := by simpa using h1
    rcases h1' with hdf | hts
    · rw [List.isEmpty_iff] at hdf
      subst hdf
      simp
    · have hnil : trimChars kstr.data = [] := congrArg String.data (eq_of_beq hts)
      rw [parseKeywords_of_blank hnil]
      simp [titleMatches]
  · rw [List.isEmpty_iff] at h2
    rw [h2]
    simp [titleMatches]
  · rw [mem_sortRecs, List.mem_filter]
    simp [Bool.and_eq_true, bne_iff_ne, and_assoc]

/-- C2 counterexample: membership in the result of
`find_similar_circulars_local` is not equivalent to whole-word keyword
matching on the title alone: a record titled Short Selling matches the
keyword short but is absent from the result, being excluded as the original
circular. -/
theorem find_similar_membership_cx :
    ¬((⟨"01 Jan 2024", "Short Selling", some "L1"⟩ : Record) ∈
        find_similar_circulars_local "short"
          [⟨"01 Jan 2024", "Short Selling", some "L1"⟩] "Short Selling" ↔
      titleMatches (parseKeywords "short")
        (Record.title ⟨"01 Jan 2024", "Short Selling", some "L1"⟩) = true) := by
  decide

/-- C2 (amended): `find_similar_circulars_local` parses the keyword CSV by
splitting on commas, trimming, lower-casing and dropping empties; it returns
an empty result for an empty corpus or an empty parsed keyword set; and a
record is in the result iff it is in the corpus, some keyword occurs in its
title as a whole word case-insensitively, and its trimmed title differs from
the trimmed excluded title. -/
theorem find_similar_spec (kstr : String) (df : List Record) (t : String) :
    (df = [] → find_similar_circulars_local kstr df t = []) ∧
    (parseKeywords kstr = [] → find_similar_circulars_local kstr df t = []) ∧
    (∀ r : Record, r ∈ find_similar_circulars_local kstr df t ↔
      (r ∈ df ∧ titleMatches (parseKeywords kstr) r.title = true ∧
        strTrim r.title ≠ strTrim t)) := by
  refine ⟨?_, ?_, fun r => mem_find_similar⟩
  · intro h
    subst h
    unfold find_similar_circulars_local
    simp
  · intro h
    unfold find_similar_circulars_local
    split_ifs with h1 h2
    · rfl
    · rfl
    · exact absurd (by rw [h]; rfl) h2

/-- Concrete record used by the witness of the amended C2 theorem. -/
def w2Rec : Record := ⟨"03 Mar 2024", "Short selling disclosure norms", some "W2"⟩

theorem find_similar_spec_witness :
    w2Rec ∈ find_similar_circulars_local "short,selling" [w2Rec]
      "Framework for Short Selling" :=
  ((find_similar_spec "short,selling" [w2Rec] "Framework for Short Selling").2.2 w2Rec).mpr
    (by decide)

/-- C3: no record whose trimmed title equals the trimmed excluded title
appears in the result of `find_similar_circulars_local`, for every keyword
set, corpus and excluded title. -/
theorem find_similar_excludes (kstr : String) (df : List Record) (t : String) (r : Record)
    (h : r ∈ find_similar_circulars_local kstr df t) : strTrim r.title ≠ strTrim t :=
  (mem_find_similar.mp h).2.2

theorem find_similar_excludes_witness :
    strTrim (Record.title ⟨"01 Jan 2024", "Margin rules update", some "L1"⟩) ≠
      strTrim "Other title" :=
  find_similar_excludes "margin" [⟨"01 Jan 2024", "Margin rules update", some "L1"⟩]
    "Other title" ⟨"01 Jan 2024", "Margin rules update", some "L1"⟩ (by decide)

/-- C4: the result of `find_similar_circulars_local` is sorted by the order
`recLE`: parsed date descending first, title ascending second, with records
whose dates fail to parse ordered after all records with parseable dates. -/
theorem find_similar_sorted (kstr : String) (df : List Record) (t : String) :
    (find_similar_circulars_local kstr df t).Pairwise recOrder := by
  unfold find_similar_circulars_local
  split_ifs with h1 h2
  · exact List.Pairwise.nil
  · exact List.Pairwise.nil
  · exact List.sorted_insertionSort recOrder _

/-- C7: `summarize_circular_text` always returns a display string and never
raises: blank input yields the fixed guidance string whatever the network
outcome is (so without depending on any network call); a well-formed
response envelope yields the summary text with a formatted link to the
source appended; a request failure, a malformed envelope and a
response-decode failure yield their distinct descriptive strings. -/
theorem summarize_spec :
    (∀ (t l : String) (api : ApiOutcome), strTrim t = "" →
      summarize_circular_text t l api = "Please provide text to summarize.") ∧
    (∀ (t l : String) (api api2 : ApiOutcome), strTrim t = "" →
      summarize_circular_text t l api = summarize_circular_text t l api2) ∧
    (∀ (t l : String) (res : GenResult) (s : String), strTrim t ≠ "" →
      extractSummary res = some s →
      summarize_circular_text t l (ApiOutcome.ok res) =
        s ++ "\n\n[Original Circular Link](" ++ l ++ ")") ∧
    (∀ (t l : String) (res : GenResult), strTrim t ≠ "" → extractSummary res = none →
      summarize_circular_text t l (ApiOutcome.ok res) =
        "Failed to get summary: Unexpected API response structure.") ∧
    (∀ (t l e : String), strTrim t ≠ "" →
      summarize_circular_text t l (ApiOutcome.requestError e) =
        "An error occurred while summarizing: " ++ e) ∧
    (∀ (t l e : String), strTrim t ≠ "" →
      summarize_circular_text t l (ApiOutcome.decodeError e) =
        "An error occurred while processing API response: " ++ e) ∧
    (∀ (t l e : String), strTrim t ≠ "" →
      summarize_circular_text t l (ApiOutcome.otherError e) =
        "An unexpected error occurred: " ++ e) := by
  refine ⟨?_, ?_, ?_, ?_, ?_, ?_, ?_⟩
  · intro t l api h
    simp [summarize_circular_text, h]
  · intro t l api api2 h
    simp [summarize_circular_text, h]
  · intro t l res s h h2
    simp [summarize_circular_text, h, h2]
  · intro t l res h h2
    simp [summarize_circular_text, h, h2]
  · intro t l e h
    simp [summarize_circular_text, h]
  · intro t l e h
    simp [summarize_circular_text, h]
  · intro t l e h
    simp [summarize_circular_text, h]

theorem summarize_spec_witness :
    summarize_circular_text "" "L" (ApiOutcome.requestError "down") =
      "Please provide text to summarize." ∧
    summarize_circular_text "text" "L"
        (ApiOutcome.ok ⟨some [⟨some ⟨some [⟨some "S"⟩]⟩⟩]⟩) =
      "S" ++ "\n\n[Original Circular Link](" ++ "L" ++ ")" ∧
    summarize_circular_text "text" "L" (ApiOutcome.ok ⟨some []⟩) =
      "Failed to get summary: Unexpected API response structure." ∧
    summarize_circular_text "text" "L" (ApiOutcome.requestError "neterr") =
      "An error occurred while summarizing: " ++ "neterr" ∧
    summarize_circular_text "text" "L" (ApiOutcome.decodeError "badjson") =
      "An error occurred while processing API response: " ++ "badjson" :=
  ⟨summarize_spec.1 "" "L" (ApiOutcome.requestError "down") (by decide),
   summarize_spec.2.2.1 "text" "L" ⟨some [⟨some ⟨some [⟨some "S"⟩]⟩⟩]⟩ "S" (by decide) rfl,
   summarize_spec.2.2.2.1 "text" "L" ⟨some []⟩ (by decide) rfl,
   summarize_spec.2.2.2.2.1 "text" "L" "neterr" (by decide),
   summarize_spec.2.2.2.2.2.1 "text" "L" "badjson" (by decide)⟩

end Sebi
